import Mathlib

/-!
Verification of the AiDIY knowledge-base pipeline (Python sources under
`src/kb/`) against its natural-language specification.

Shallow embedding conventions:
* Python `str` is Lean `String`; `bytes` is `List Nat` (each element < 256).
* Python `float` scores are modelled exactly: by `ℚ` where the code only
  adds, multiplies and compares (RRF fusion, re-ranker, retriever), and by
  `ℝ` where square roots appear (cosine distance in the vector store).
* Python dicts keyed by strings are association lists with
  last-write-wins lookup where insertion order matters, and explicit
  upsert operations where they model database tables.
* `hashlib.sha256` is embedded as an executable SHA-256 over `List Nat`.
* Database queries (`ORDER BY ... LIMIT k`, `DELETE WHERE`, upserts) are
  embedded as pure list transformations of the table contents; `list.sort`
  / SQL ordering is embedded with the stable `List.insertionSort` (a stable
  sort's output is uniquely determined, so this is behaviourally the same
  list Python's stable sort produces).
-/

set_option maxRecDepth 1000000

namespace KB

/-! ## SHA-256 (embedding of `hashlib.sha256(...).hexdigest()` used by
`src/kb/pipeline/chunk.py`) -/

/-- Truncate to 32 bits. -/
def w32 (x : Nat) : Nat := x % 4294967296

/-- Rotate a 32-bit word right by `n`. -/
def rotr32 (n x : Nat) : Nat := w32 ((x >>> n) ||| (x <<< (32 - n)))

/-- SHA-256 round constants (FIPS 180-4, in decimal). -/
def shaK : List Nat :=
  [1116352408, 1899447441, 3049323471, 3921009573, 961987163, 1508970993,
   2453635748, 2870763221, 3624381080, 310598401, 607225278, 1426881987,
   1925078388, 2162078206, 2614888103, 3248222580, 3835390401, 4022224774,
   264347078, 604807628, 770255983, 1249150122, 1555081692, 1996064986,
   2554220882, 2821834349, 2952996808, 3210313671, 3336571891, 3584528711,
   113926993, 338241895, 666307205, 773529912, 1294757372, 1396182291,
   1695183700, 1986661051, 2177026350, 2456956037, 2730485921, 2820302411,
   3259730800, 3345764771, 3516065817, 3600352804, 4094571909, 275423344,
   430227734, 506948616, 659060556, 883997877, 958139571, 1322822218,
   1537002063, 1747873779, 1955562222, 2024104815, 2227730452, 2361852424,
   2428436474, 2756734187, 3204031479, 3329325298]

/-- SHA-256 initial hash state (FIPS 180-4, in decimal). -/
def shaH0 : List Nat :=
  [1779033703, 3144134277, 1013904242, 2773480762, 1359893119, 2600822924,
   528734635, 1541459225]

/-- Pad a byte message per SHA-256: append `0x80`, zeros, then the 64-bit
big-endian bit length, reaching a multiple of 64 bytes. -/
def shaPad (msg : List Nat) : List Nat :=
  let len := msg.length
  let bitLen := 8 * len
  let zeros := (64 - ((len + 9) % 64)) % 64
  msg ++ [0x80] ++ List.replicate zeros 0 ++
    [(bitLen >>> 56) % 256, (bitLen >>> 48) % 256, (bitLen >>> 40) % 256, (bitLen >>> 32) % 256,
     (bitLen >>> 24) % 256, (bitLen >>> 16) % 256, (bitLen >>> 8) % 256, bitLen % 256]

/-- Split a list into blocks of `n` elements (fuel-driven structural
recursion so the kernel can evaluate it). -/
def toBlocksAux (n : Nat) : Nat → List α → List (List α)
  | 0, _ => []
  | _, [] => []
  | fuel+1, l => l.take n :: toBlocksAux n fuel (l.drop n)

/-- Split a list into blocks of `n` elements. -/
def toBlocks (n : Nat) (l : List α) : List (List α) := toBlocksAux n l.length l

/-- Big-endian 32-bit words from bytes. -/
def bytesToWords : List Nat → List Nat
  | b0 :: b1 :: b2 :: b3 :: rest => (((b0 * 256 + b1) * 256 + b2) * 256 + b3) :: bytesToWords rest
  | _ => []

def smallSigma0 (x : Nat) : Nat := (rotr32 7 x) ^^^ (rotr32 18 x) ^^^ (x >>> 3)
def smallSigma1 (x : Nat) : Nat := (rotr32 17 x) ^^^ (rotr32 19 x) ^^^ (x >>> 10)
def bigSigma0 (x : Nat) : Nat := (rotr32 2 x) ^^^ (rotr32 13 x) ^^^ (rotr32 22 x)
def bigSigma1 (x : Nat) : Nat := (rotr32 6 x) ^^^ (rotr32 11 x) ^^^ (rotr32 25 x)

/-- Message schedule: extend the 16 block words to 64. -/
def extendSchedule (w0 : Array Nat) : Array Nat :=
  (List.range 48).foldl
    (fun w _ =>
      let i := w.size
      let v := w32 (smallSigma1 (w.getD (i-2) 0) + w.getD (i-7) 0 +
                    smallSigma0 (w.getD (i-15) 0) + w.getD (i-16) 0)
      w.push v)
    w0

/-- One SHA-256 compression round on the working state `[a,b,c,d,e,f,g,h]`
(the complement in `Ch` is `0xffffffff - e` over `Nat`). -/
def roundStep (w : Array Nat) (st : List Nat) (i : Nat) : List Nat :=
  match st with
  | [va, vb, vc, vd, ve, vf, vg, vh] =>
    let ch := (ve &&& vf) ^^^ ((4294967295 - ve) &&& vg)
    let maj := (va &&& vb) ^^^ (va &&& vc) ^^^ (vb &&& vc)
    let t1 := w32 (vh + bigSigma1 ve + ch + shaK.getD i 0 + w.getD i 0)
    let t2 := w32 (bigSigma0 va + maj)
    [w32 (t1 + t2), va, vb, vc, w32 (vd + t1), ve, vf, vg]
  | _ => st

/-- Compress one 64-byte block into the running hash state. -/
def compressBlock (hs : List Nat) (block : List Nat) : List Nat :=
  let w := extendSchedule (bytesToWords block).toArray
  let final := (List.range 64).foldl (roundStep w) hs
  List.zipWith (fun x y => w32 (x + y)) hs final

/-- SHA-256 digest of a byte message, as eight 32-bit words. -/
def sha256Words (msg : List Nat) : List Nat :=
  (toBlocks 64 (shaPad msg)).foldl compressBlock shaH0

def hexDigit (n : Nat) : Char :=
  if n < 10 then Char.ofNat (48 + n) else Char.ofNat (87 + n)

/-- Lowercase hex rendering of a 32-bit word. -/
def toHex8 (x : Nat) : List Char :=
  [hexDigit ((x >>> 28) % 16), hexDigit ((x >>> 24) % 16), hexDigit ((x >>> 20) % 16),
   hexDigit ((x >>> 16) % 16), hexDigit ((x >>> 12) % 16), hexDigit ((x >>> 8) % 16),
   hexDigit ((x >>> 4) % 16), hexDigit (x % 16)]

/-- Hex digest of a byte message: `hashlib.sha256(msg).hexdigest()`. -/
def sha256Hex (msg : List Nat) : String :=
  ⟨(sha256Words msg).flatMap toHex8⟩

/-- UTF-8 encoding of a string: Python `str.encode()`. -/
def utf8Bytes (s : String) : List Nat :=
  s.data.flatMap fun c =>
    let n := c.toNat
    if n < 0x80 then [n]
    else if n < 0x800 then [0xC0 ||| (n >>> 6), 0x80 ||| (n &&& 0x3F)]
    else if n < 0x10000 then
      [0xE0 ||| (n >>> 12), 0x80 ||| ((n >>> 6) &&& 0x3F), 0x80 ||| (n &&& 0x3F)]
    else
      [0xF0 ||| (n >>> 18), 0x80 ||| ((n >>> 12) &&& 0x3F),
       0x80 ||| ((n >>> 6) &&& 0x3F), 0x80 ||| (n &&& 0x3F)]

/-! ## Domain entities (`src/kb/domain/document.py`, `src/kb/domain/chunk.py`) -/

/-- `Document` dataclass. The lazy-loaded `content` is `Option String`
(Python `str | None`); the opaque `frontmatter` dict is not modelled (no
claim touches it). -/
structure Document where
  id : String
  path : String
  title : String
  checksum : String
  version : String := "latest"
  content : Option String := none
deriving DecidableEq, Repr

/-- `Chunk` dataclass (the optional `metadata` dict is not modelled; no
claim touches it). -/
structure Chunk where
  chunk_id : String
  doc_id : String
  content : String
  heading_path : List String := []
  chunk_index : Nat := 0
deriving DecidableEq, Repr

/-! ## Chunker (`src/kb/pipeline/chunk.py`)

`split_document` delegates the text splitting itself to two langchain
splitters (`MarkdownHeaderTextSplitter`, `RecursiveCharacterTextSplitter`),
which are external library code, pure functions of their input.  They are
parameters of the embedding (`mdSplit`, `recSplit`); the repository's own
logic — the section loop, the size test, heading-path extraction, chunk
numbering and chunk-id construction — is embedded concretely. -/

/-- One section produced by `MarkdownHeaderTextSplitter`: langchain
metadata keys `Header 1`..`Header 4` (absent key = `none`) plus the section
text. -/
structure MDSection where
  header1 : Option String := none
  header2 : Option String := none
  header3 : Option String := none
  header4 : Option String := none
  page_content : String
deriving DecidableEq, Repr

/-- `_extract_heading_path`: collect `Header 1`..`Header 4` metadata values
that are present and truthy (non-empty), in order. -/
def extract_heading_path (s : MDSection) : List String :=
  (([s.header1, s.header2, s.header3, s.header4].filterMap id).filter (fun h => h ≠ ""))

/-- `_create_chunk`: chunk with stable ID using content hash. -/
def create_chunk (document : Document) (content : String) (heading_path : List String)
    (chunk_index : Nat) : Chunk :=
  let content_hash := sha256Hex (utf8Bytes content)
  let chunk_id_input :=
    document.id ++ ":" ++ document.version ++ ":" ++
    String.intercalate ":" heading_path ++ ":" ++ toString chunk_index ++ ":" ++ content_hash
  { chunk_id := sha256Hex (utf8Bytes chunk_id_input)
    doc_id := document.id
    content := content
    heading_path := heading_path
    chunk_index := chunk_index }

/-- Loop body of `split_document`: process one markdown section, carrying
the accumulated chunks and the running `chunk_index`.  A section longer
than `max_section_chars` (`len` counts characters) is recursively split
and contributes one chunk per sub-chunk. -/
def splitSectionStep (recSplit : Nat → Nat → String → List String)
    (chunk_size chunk_overlap max_section_chars : Nat) (document : Document)
    (st : List Chunk × Nat) (sec : MDSection) : List Chunk × Nat :=
  if sec.page_content.length > max_section_chars then
    (recSplit chunk_size chunk_overlap sec.page_content).foldl
      (fun st' sub_chunk =>
        (st'.1 ++ [create_chunk document sub_chunk (extract_heading_path sec) st'.2],
         st'.2 + 1))
      st
  else
    (st.1 ++ [create_chunk document sec.page_content (extract_heading_path sec) st.2],
     st.2 + 1)

/-- `split_document`, with the two langchain splitters as parameters:
`mdSplit` stands for `MarkdownHeaderTextSplitter.split_text` and `recSplit
chunk_size chunk_overlap` for `RecursiveCharacterTextSplitter.split_text`.
An absent or empty `content` (both falsy in Python, read as `getD ""`)
yields no chunks. -/
def split_document (mdSplit : String → List MDSection)
    (recSplit : Nat → Nat → String → List String) (document : Document)
    (chunk_size : Nat := 500) (chunk_overlap : Nat := 80)
    (max_section_chars : Nat := 2000) : List Chunk :=
  if document.content.getD "" = "" then []
  else
    ((mdSplit (document.content.getD "")).foldl
      (splitSectionStep recSplit chunk_size chunk_overlap max_section_chars document)
      ([], 0)).1

/-! ## Vector store search (`src/kb/storage/vectorstore.py`, lines 249-308)

`VectorStore.search` runs, over the chunks table,
`SELECT ..., 1 - (embedding <=> %s::vector) AS score ... ORDER BY
embedding <=> %s::vector LIMIT k` (with an optional `WHERE doc_id = ...`),
where pgvector's `<=>` is cosine distance.  The embedding is a pure list
transformation of the table rows; real arithmetic (with `Real.sqrt` in the
cosine) models the float computation.  SQL specifies no ordering among
rows of equal distance; the embedding uses the stable `insertionSort`, so
ties follow table order — the spec's chunk-id tie-break is not in the
code. -/

/-- A row of the chunks table (the `id SERIAL` and `created_at` columns
play no role in search and are not modelled). -/
structure VSRow where
  chunk_id : String
  doc_id : String
  content : String
  heading_path : List String
  chunk_index : Nat
  embedding : List ℝ

/-- One search hit as `VectorStore.search` returns it: the chunk columns
plus `score`. -/
structure VSResult where
  chunk_id : String
  doc_id : String
  content : String
  heading_path : List String
  chunk_index : Nat
  score : ℝ

/-- Dot product of two vectors (componentwise, as pgvector computes it). -/
def dotL (a b : List ℝ) : ℝ := (List.zipWith (fun x y => x * y) a b).sum

/-- pgvector cosine distance: `1 - <a,b> / (|a| * |b|)`. -/
noncomputable def cosine_distance (a b : List ℝ) : ℝ :=
  1 - dotL a b / (Real.sqrt (dotL a a) * Real.sqrt (dotL b b))

/-- Comparison used by `ORDER BY embedding <=> query`: ascending cosine
distance from the query. -/
def distLE (q : List ℝ) (a b : VSRow) : Prop :=
  cosine_distance q a.embedding ≤ cosine_distance q b.embedding

/-- The `WHERE doc_id = ...` filter of `VectorStore.search`. -/
def vsFilter (rows : List VSRow) : Option String → List VSRow
  | some d => rows.filter (fun r => r.doc_id == d)
  | none => rows

/-- `VectorStore.search`: optional doc filter, score `1 - distance`,
ordered by ascending distance, first `k` rows. -/
noncomputable def vectorstore_search (q : List ℝ) (rows : List VSRow) (k : Nat)
    (filter_doc_id : Option String := none) : List VSResult :=
  ((@List.insertionSort VSRow (distLE q) (fun _ _ => Classical.propDecidable _)
      (vsFilter rows filter_doc_id)).take k).map
    (fun r => ⟨r.chunk_id, r.doc_id, r.content, r.heading_path, r.chunk_index,
               1 - cosine_distance q r.embedding⟩)

/-! ## Search-result dictionaries (rational-score model)

`VectorStore.search`, `HybridSearcher` and `ReRanker` pass around Python
dicts with keys `chunk_id, doc_id, content, heading_path, chunk_index,
score`.  `semantic_score` is the optional extra key the retriever reads in
hybrid mode (`retriever.py` line 125); `semanticScore = none` models its
absence from a dict. -/

structure SearchResult where
  chunk_id : String
  doc_id : String
  content : String
  heading_path : List String
  chunk_index : Nat
  score : ℚ
  semanticScore : Option ℚ := none
deriving DecidableEq, Repr

/-- A result dict as `VectorStore.search` builds it (vectorstore.py lines
298-308): exactly the six listed keys — in particular no
`semantic_score` key. -/
def vs_result (chunk_id doc_id content : String) (heading_path : List String)
    (chunk_index : Nat) (score : ℚ) : SearchResult :=
  { chunk_id := chunk_id, doc_id := doc_id, content := content,
    heading_path := heading_path, chunk_index := chunk_index, score := score,
    semanticScore := none }

/-- Stable descending sort by `score`: Python
`sort(key=lambda x: x["score"], reverse=True)`. -/
def sortByScoreDesc (l : List SearchResult) : List SearchResult :=
  List.insertionSort (fun a b => b.score ≤ a.score) l

/-! ## Hybrid searcher (`src/kb/storage/hybrid_search.py`, lines 234-303) -/

/-- `HybridSearcher` RRF parameters. -/
structure HybridConfig where
  alpha : ℚ := 7/10
  rrf_k : Nat := 60
deriving DecidableEq, Repr

/-- Python-dict lookup over an association list: later entries overwrite
earlier ones (`{r["chunk_id"]: i + 1 for i, r in enumerate(rs)}`). -/
def dict_get (m : List (String × Nat)) (key : String) : Option Nat :=
  m.foldl (fun acc p => if p.1 == key then some p.2 else acc) none

/-- The `chunk_id -> 1-based rank` entries of a ranked result list. -/
def rank_dict (rs : List SearchResult) : List (String × Nat) :=
  rs.enum.map (fun p => (p.2.chunk_id, p.1 + 1))

/-- All chunk ids of both lists, first-seen order (models iterating the
Python id set; the claims do not depend on set iteration order). -/
def fusion_ids (semantic_results keyword_results : List SearchResult) : List String :=
  ((semantic_results.map (·.chunk_id)) ++ (keyword_results.map (·.chunk_id))).eraseDups

/-- RRF score of one chunk id, by presence in the two rank dicts — the
three-branch computation of `_reciprocal_rank_fusion` (`None` in both
dicts yields no entry). -/
def rrf_score_of (cfg : HybridConfig) (semRank keyRank : Option Nat) : Option ℚ :=
  match semRank, keyRank with
  | some r1, some r2 =>
      some (cfg.alpha * ((1 : ℚ) / (cfg.rrf_k + r1)) + (1 - cfg.alpha) * ((1 : ℚ) / (cfg.rrf_k + r2)))
  | some r1, none => some (cfg.alpha / (cfg.rrf_k + r1))
  | none, some r2 => some ((1 - cfg.alpha) / (cfg.rrf_k + r2))
  | none, none => none

/-- The `rrf_scores` dict as an ordered list of `(chunk_id, score)`. -/
def rrf_pairs (cfg : HybridConfig) (semantic_results keyword_results : List SearchResult) :
    List (String × ℚ) :=
  (fusion_ids semantic_results keyword_results).filterMap fun id =>
    (rrf_score_of cfg (dict_get (rank_dict semantic_results) id)
        (dict_get (rank_dict keyword_results) id)).map (fun s => (id, s))

/-- `result_map` lookup: metadata from the semantic list preferred, falling
back to the keyword list; within a list, a duplicated chunk id keeps the
last dict entry. -/
def result_map_get (semantic_results keyword_results : List SearchResult) (id : String) :
    Option SearchResult :=
  match semantic_results.reverse.find? (fun r => r.chunk_id == id) with
  | some r => some r
  | none => keyword_results.reverse.find? (fun r => r.chunk_id == id)

/-- `HybridSearcher._reciprocal_rank_fusion`: score every id by RRF, sort
descending by fused score (stable), keep at most `k`, attach each fused
score to the chunk's metadata dict as its new `score` value.  Note the
fused dict's `score` key is overwritten with the RRF score and no
`semantic_score` key is ever written. -/
def reciprocal_rank_fusion (cfg : HybridConfig)
    (semantic_results keyword_results : List SearchResult) (k : Nat := 10) :
    List SearchResult :=
  let sortedScores :=
    List.insertionSort (fun a b : String × ℚ => b.2 ≤ a.2)
      (rrf_pairs cfg semantic_results keyword_results)
  (sortedScores.take k).filterMap fun p =>
    (result_map_get semantic_results keyword_results p.1).map
      (fun r => { r with score := p.2 })

/-! ## Re-ranker (`src/kb/rag/reranker.py`) -/

/-- `ReRanker` parameters with their Python defaults. -/
structure RerankConfig where
  exact_match_boost : ℚ := 15/100
  heading_boost : ℚ := 10/100
  diversity_penalty : ℚ := 5/100
  term_freq_weight : ℚ := 5/100
deriving DecidableEq, Repr

/-- ASCII lowercasing of one character. -/
def lowerChar (c : Char) : Char :=
  if 'A' ≤ c && c ≤ 'Z' then Char.ofNat (c.toNat + 32) else c

/-- ASCII lowercasing, the effect of Python `str.lower()` on the ASCII
strings the claims use. -/
def pyLower (s : String) : String := ⟨s.data.map lowerChar⟩

/-- Whether `pat` occurs at the head of `l`. -/
def startsWithChars : List Char → List Char → Bool
  | [], _ => true
  | _ :: _, [] => false
  | c :: cs, d :: ds => c == d && startsWithChars cs ds

/-- Left-to-right non-overlapping occurrence count, fuel-driven (fuel is
the haystack length, which bounds the number of steps). -/
def pyCountAux (needle : List Char) : Nat → List Char → Nat
  | 0, _ => 0
  | _+1, [] => 0
  | fuel+1, c :: rest =>
    if startsWithChars needle (c :: rest) then
      1 + pyCountAux needle fuel (rest.drop (needle.length - 1))
    else pyCountAux needle fuel rest

/-- Python `hay.count(sub)`: non-overlapping occurrences; the empty needle
counts `len + 1` as in CPython. -/
def pyCount (hay sub : String) : Nat :=
  match sub.data with
  | [] => hay.data.length + 1
  | _ => pyCountAux sub.data hay.data.length hay.data

/-- Python `sub in hay` (substring containment). -/
def pyContains (hay sub : String) : Bool := 0 < pyCount hay sub

/-- Python regex `\w` on ASCII: letters, digits, underscore. -/
def isWordChar (c : Char) : Bool := c.isAlphanum || c == '_'

/-- Fold step collecting maximal runs of word characters. -/
def wordRunStep (st : List (List Char) × List Char) (c : Char) :
    List (List Char) × List Char :=
  if isWordChar c then (st.1, st.2 ++ [c])
  else if st.2 = [] then st else (st.1 ++ [st.2], [])

/-- `re.findall(r"\b\w+\b", s)`: the maximal word-character runs of `s`. -/
def wordRuns (s : String) : List String :=
  let st := s.data.foldl wordRunStep ([], [])
  (if st.2 = [] then st.1 else st.1 ++ [st.2]).map (fun cs => ⟨cs⟩)

/-- Stop-word set of `ReRanker._extract_terms`. -/
def rerankerStopWords : List String :=
  ["a", "an", "the", "and", "or", "but", "is", "are", "was", "were", "in", "on",
   "at", "to", "for", "of", "with", "by", "from", "as", "how", "what", "where",
   "when", "why", "who", "which", "that"]

/-- `ReRanker._extract_terms`: tokenize the lowercased query, drop stop
words and terms of length ≤ 2. -/
def extract_terms (query : String) : List String :=
  (wordRuns (pyLower query)).filter
    (fun t => !(rerankerStopWords.contains t) && t.length > 2)

/-- `ReRanker._count_exact_matches`: occurrences of the full (lowercased)
query in the (lowercased) content. -/
def count_exact_matches (query content : String) : Nat := pyCount content query

/-- `ReRanker._calculate_heading_boost`. -/
def calculate_heading_boost (cfg : RerankConfig) (query_terms : List String)
    (heading_path : List String) : ℚ :=
  if heading_path = [] then 0
  else
    let heading_text := pyLower (String.intercalate " " heading_path)
    let nMatches := (query_terms.filter (fun t => pyContains heading_text t)).length
    if nMatches = 0 then 0
    else cfg.heading_boost * min ((nMatches : ℚ) / query_terms.length) 1

/-- `ReRanker._calculate_term_frequency` (the `term_counts` dict is keyed
by distinct terms; the denominators use the full term list). -/
def calculate_term_frequency (query_terms : List String) (content : String) : ℚ :=
  if query_terms = [] then 0
  else
    let counts := query_terms.eraseDups.map (fun t => pyCount content t)
    let terms_found := (counts.filter (fun c => decide (0 < c))).length
    if terms_found = 0 then 0
    else
      let total_occurrences : ℚ := (counts.sum : ℚ)
      let occurrence_bonus := min (total_occurrences / (query_terms.length * 2)) (1/2)
      ((terms_found : ℚ) / query_terms.length) * (1/2) + occurrence_bonus * (1/2)

/-- The `score_adjustment` accumulated for one result in the first pass of
`ReRanker.rerank`: exact-match boost, heading boost, weighted
term-frequency component (the content is lowercased once and used by all
three, as in the source). -/
def rerankAdjustment (cfg : RerankConfig) (query_lower : String)
    (query_terms : List String) (r : SearchResult) : ℚ :=
  (if 0 < count_exact_matches query_lower (pyLower r.content) then
      cfg.exact_match_boost * (min (count_exact_matches query_lower (pyLower r.content)) 3 : ℚ) / 3
    else 0)
  + calculate_heading_boost cfg query_terms r.heading_path
  + calculate_term_frequency query_terms (pyLower r.content) * cfg.term_freq_weight

/-- First pass of `ReRanker.rerank` on one result: per-item boosts,
clamped to `[0,1]`. -/
def rerankPass1 (cfg : RerankConfig) (query_lower : String) (query_terms : List String)
    (r : SearchResult) : SearchResult :=
  { r with score := max 0 (min 1 (r.score + rerankAdjustment cfg query_lower query_terms r)) }

/-- Second pass of `ReRanker.rerank` on one result: `doc_occurrences` holds
the total number of results sharing the doc id (the Counter filled during
the first pass, read only after it is complete). -/
def rerankPass2 (cfg : RerankConfig) (doc_occurrences : String → Nat)
    (r : SearchResult) : SearchResult :=
  let occurrence_count := doc_occurrences r.doc_id
  if 1 < occurrence_count then
    { r with score := max 0 (r.score - cfg.diversity_penalty * ((occurrence_count : ℚ) - 1)) }
  else r

/-- `ReRanker.rerank`: boosts, diversity penalty, stable descending
re-sort by adjusted score. -/
def rerank (cfg : RerankConfig) (results : List SearchResult) (query : String) :
    List SearchResult :=
  if results = [] then []
  else
    sortByScoreDesc
      ((results.map (rerankPass1 cfg (pyLower query) (extract_terms query))).map
        (rerankPass2 cfg (fun d => (results.map (·.doc_id)).count d)))

/-! ## Retriever (`src/kb/rag/retriever.py`) -/

/-- `RetrievedChunk` dataclass. -/
structure RetrievedChunk where
  chunk_id : String
  doc_id : String
  content : String
  heading_path : List String
  chunk_index : Nat
  score : ℚ
  citation_id : Nat
deriving DecidableEq, Repr

/-- `filter_score` (retriever.py lines 122-126): in hybrid mode the value
of the `semantic_score` key, defaulting to `0.0` when the key is absent;
otherwise the `score` value. -/
def filter_score (use_hybrid : Bool) (r : SearchResult) : ℚ :=
  if use_hybrid then r.semanticScore.getD 0 else r.score

/-- Step 5 of `KBRetriever.search`: group by doc in rank order keeping at
most `max_chunks_per_doc` chunks per doc, then flatten in first-seen doc
order (Python `defaultdict` insertion order). -/
def dedup_by_doc (max_chunks_per_doc : Nat) (sorted_results : List SearchResult) :
    List SearchResult :=
  ((sorted_results.map (·.doc_id)).eraseDups).flatMap
    (fun d => (sorted_results.filter (fun r => r.doc_id == d)).take max_chunks_per_doc)

/-- `KBRetriever.search` after the raw search and optional re-ranking
(steps 3-8): threshold filter, sort, per-doc dedup, re-sort, citation
ids.  The function is total: zero surviving results yield `[]`. -/
def retriever_postprocess (score_threshold : ℚ) (max_chunks_per_doc : Nat)
    (use_hybrid : Bool) (raw_results : List SearchResult) : List RetrievedChunk :=
  let filtered_results :=
    raw_results.filter (fun r => score_threshold ≤ filter_score use_hybrid r)
  if filtered_results = [] then []
  else
    let sorted_results := sortByScoreDesc filtered_results
    let final_results := sortByScoreDesc (dedup_by_doc max_chunks_per_doc sorted_results)
    final_results.enum.map fun p =>
      { chunk_id := p.2.chunk_id, doc_id := p.2.doc_id, content := p.2.content,
        heading_path := p.2.heading_path, chunk_index := p.2.chunk_index,
        score := filter_score use_hybrid p.2, citation_id := p.1 + 1 }

/-- `KBRetriever.search` with the raw search results (and the query for
the optional re-ranking pass) as inputs: the full post-retrieval
pipeline. -/
def retriever_search (score_threshold : ℚ) (max_chunks_per_doc : Nat)
    (use_hybrid use_reranking : Bool) (rerankCfg : RerankConfig)
    (raw_results : List SearchResult) (query : String) : List RetrievedChunk :=
  let raw_results :=
    if use_reranking then rerank rerankCfg raw_results query else raw_results
  retriever_postprocess score_threshold max_chunks_per_doc use_hybrid raw_results

/-! ## Doc store, vector store rows and the incremental indexer
(`src/kb/storage/docstore.py`, `src/kb/pipeline/incremental.py`,
`src/kb/pipeline/index.py`)

The two PostgreSQL tables are embedded as lists of rows; each store
method becomes a pure transformation.  `IncrementalIndexer.index_document`
and the per-document body of `IndexBuilder.build_from_jsonl` are state
passing over the pair of tables. -/

/-- A row of `kb_documents` (timestamps omitted). -/
structure DocumentRow where
  doc_id : String
  path : String
  title : String
  version : String
  checksum : String
  chunk_ids : List String
deriving DecidableEq, Repr

/-- The two tables the indexer touches: `kb_documents` and the chunks
table of the vector store (a chunk row's embedding column is a function
of its content and plays no role in the indexing claims). -/
structure Stores where
  docs : List DocumentRow
  vecChunks : List Chunk
deriving DecidableEq, Repr

/-- Row of `kb_documents` for a doc id (`doc_id` is the primary key). -/
def docs_find (docs : List DocumentRow) (doc_id : String) : Option DocumentRow :=
  docs.find? (fun r => r.doc_id == doc_id)

/-- `DocStore.get_checksum`: checksum of the row, or `None`. -/
def get_checksum (docs : List DocumentRow) (doc_id : String) : Option String :=
  (docs_find docs doc_id).map (·.checksum)

/-- `DocStore.get_chunk_ids`: chunk ids of the row, `[]` if absent. -/
def get_chunk_ids (docs : List DocumentRow) (doc_id : String) : List String :=
  ((docs_find docs doc_id).map (·.chunk_ids)).getD []

/-- `DocStore.upsert_document`: `INSERT ... ON CONFLICT (doc_id) DO UPDATE`. -/
def upsert_document (docs : List DocumentRow) (row : DocumentRow) : List DocumentRow :=
  if docs.any (fun r => r.doc_id == row.doc_id) then
    docs.map (fun r => if r.doc_id == row.doc_id then row else r)
  else docs ++ [row]

/-- `VectorStore.delete_chunks`: `DELETE ... WHERE chunk_id = %s` per id. -/
def delete_chunks (rows : List Chunk) (chunk_ids : List String) : List Chunk :=
  rows.filter (fun r => !(chunk_ids.contains r.chunk_id))

/-- One `INSERT ... ON CONFLICT (chunk_id) DO UPDATE SET content,
embedding, heading_path, chunk_index` of `VectorStore.add_chunks`. -/
def vec_upsert (rows : List Chunk) (c : Chunk) : List Chunk :=
  if rows.any (fun r => r.chunk_id == c.chunk_id) then
    rows.map (fun r =>
      if r.chunk_id == c.chunk_id then
        { r with content := c.content, heading_path := c.heading_path,
                 chunk_index := c.chunk_index }
      else r)
  else rows ++ [c]

/-- `VectorStore.add_chunks` (embedding generation is external and does
not affect the stored identifying columns). -/
def add_chunks (rows : List Chunk) (chunks : List Chunk) : List Chunk :=
  chunks.foldl vec_upsert rows

/-- The result dict of `IncrementalIndexer.index_document`. -/
structure IndexResult where
  doc_id : String
  status : String
  chunks_added : Nat
  chunks_deleted : Nat
deriving DecidableEq, Repr

/-- `IncrementalIndexer.index_document`: skip when the stored checksum
equals the document's; otherwise delete the old chunks, add the new ones
and upsert the doc row. -/
def index_document (st : Stores) (document : Document) (chunks : List Chunk) :
    IndexResult × Stores :=
  let existing_checksum := get_checksum st.docs document.id
  if existing_checksum = some document.checksum then
    ({ doc_id := document.id, status := "skipped", chunks_added := 0, chunks_deleted := 0 }, st)
  else
    let old_chunk_ids := get_chunk_ids st.docs document.id
    let st := if old_chunk_ids ≠ [] then
        { st with vecChunks := delete_chunks st.vecChunks old_chunk_ids }
      else st
    let st := if chunks ≠ [] then
        { st with vecChunks := add_chunks st.vecChunks chunks }
      else st
    let chunk_ids := chunks.map (·.chunk_id)
    let newRow : DocumentRow :=
      { doc_id := document.id, path := document.path, title := document.title,
        version := document.version, checksum := document.checksum,
        chunk_ids := chunk_ids }
    let st := { st with docs := upsert_document st.docs newRow }
    ({ doc_id := document.id, status := "indexed", chunks_added := chunks.length,
       chunks_deleted := old_chunk_ids.length }, st)

/-- The per-document body of `IndexBuilder.build_from_jsonl` (index.py
lines 96-107): under `effective_force_rebuild` the existing chunks are
deleted from the vector store first, then `index_document` runs. -/
def build_step (force_rebuild : Bool) (st : Stores) (document : Document)
    (chunks : List Chunk) : IndexResult × Stores :=
  let st := if force_rebuild then
      let old_chunk_ids := get_chunk_ids st.docs document.id
      if old_chunk_ids ≠ [] then
        { st with vecChunks := delete_chunks st.vecChunks old_chunk_ids }
      else st
    else st
  index_document st document chunks

/-! ## Daily rate limiter (`src/kb/api/ratelimit.py`)

`_InMemoryDailyRateLimiter.hit` runs under a single mutex, so the claims
are about atomic sequential transitions of the limiter state.  The clock
reads (`_utc_day_key()` and `_seconds_until_utc_midnight()`) are inputs of
the embedded transition.  Python's `max(0, limit - count)` on ints equals
truncated `Nat` subtraction, used here. -/

/-- `DailyRateLimitConfig` (path prefixes are middleware routing, not part
of the limiter state machine). -/
structure RLConfig where
  global_daily_limit : Nat := 10000
  per_ip_daily_limit : Nat := 50
deriving DecidableEq, Repr

/-- Limiter state: `_day_key`, `_global_count`, `_ip_counts`.  The
`defaultdict(int)` of per-IP counters is modelled by its semantics, a
total function with default 0 (`clear()` restores the constant-0
function). -/
structure RLState where
  day_key : Option String := none
  global_count : Nat := 0
  ip_counts : String → Nat := fun _ => 0

/-- `self._ip_counts.get(ip, 0)`. -/
def ip_get (m : String → Nat) (ip : String) : Nat := m ip

/-- `self._ip_counts[ip] = n`. -/
def ip_set (m : String → Nat) (ip : String) (n : Nat) : String → Nat :=
  fun j => if j == ip then n else m j

/-- The tuple `hit` returns: `(allowed, reason, remaining_global,
remaining_ip, reset_seconds)`. -/
structure HitResult where
  allowed : Bool
  reason : String
  remaining_global : Nat
  remaining_ip : Nat
  reset_seconds : Nat
deriving DecidableEq, Repr

/-- `_InMemoryDailyRateLimiter.hit`, with the current UTC day key and the
seconds until midnight as explicit clock inputs. -/
def hit (cfg : RLConfig) (day : String) (reset_seconds : Nat) (st : RLState)
    (ip : String) : HitResult × RLState :=
  let st := if some day ≠ st.day_key then
      { day_key := some day, global_count := 0, ip_counts := fun _ => 0 }
    else st
  if cfg.global_daily_limit ≤ st.global_count then
    ({ allowed := false, reason := "global_daily_limit", remaining_global := 0,
       remaining_ip := 0, reset_seconds := reset_seconds }, st)
  else
    let current_ip := ip_get st.ip_counts ip
    if cfg.per_ip_daily_limit ≤ current_ip then
      ({ allowed := false, reason := "per_ip_daily_limit",
         remaining_global := cfg.global_daily_limit - st.global_count,
         remaining_ip := 0, reset_seconds := reset_seconds }, st)
    else
      let st := { st with global_count := st.global_count + 1,
                          ip_counts := ip_set st.ip_counts ip (current_ip + 1) }
      ({ allowed := true, reason := "ok",
         remaining_global := cfg.global_daily_limit - st.global_count,
         remaining_ip := cfg.per_ip_daily_limit - (current_ip + 1),
         reset_seconds := reset_seconds }, st)

/-- Run a sequence of `hit` calls (same UTC day), collecting each call's
`allowed` flag. -/
def runHits (cfg : RLConfig) (day : String) (reset_seconds : Nat) :
    List String → RLState → List Bool × RLState
  | [], st => ([], st)
  | ip :: rest, st =>
    let r := hit cfg day reset_seconds st ip
    let rec' := runHits cfg day reset_seconds rest r.2
    (r.1.allowed :: rec'.1, rec'.2)

/-- Number of allowed hits attributed to `ip` in a trace of `(ip, allowed)`
outcomes. -/
def countAllowedFor (ip : String) (ips : List String) (flags : List Bool) : Nat :=
  ((ips.zip flags).filter (fun p => p.1 == ip && p.2)).length

/-- Number of allowed hits in total. -/
def countAllowed (flags : List Bool) : Nat := (flags.filter id).length

/-! ## Theorems -/

/-- Sanity check of the SHA-256 embedding against the FIPS 180-2 test
vector for "abc". -/
theorem sha256Hex_abc :
    sha256Hex (utf8Bytes "abc") =
      "ba7816bf8f01cfea414140de5dae2223b00361a396177a9cb410ff61f20015ad" := by
  decide

/-- A chunk built by `create_chunk` is determined by its own fields. -/
def isCreatedChunk (doc : Document) (c : Chunk) : Prop :=
  c = create_chunk doc c.content c.heading_path c.chunk_index

/-- The `chunk_id` a `create_chunk` call assigns, as a function of its
arguments. -/
theorem create_chunk_chunk_id (doc : Document) (content : String)
    (hp : List String) (i : Nat) :
    (create_chunk doc content hp i).chunk_id =
      sha256Hex (utf8Bytes (doc.id ++ ":" ++ doc.version ++ ":" ++
        String.intercalate ":" hp ++ ":" ++ toString i ++ ":" ++
        sha256Hex (utf8Bytes content))) := rfl

theorem create_chunk_doc_id (doc : Document) (content : String)
    (hp : List String) (i : Nat) :
    (create_chunk doc content hp i).doc_id = doc.id := rfl

theorem isCreatedChunk_create (doc : Document) (content : String)
    (hp : List String) (i : Nat) : isCreatedChunk doc (create_chunk doc content hp i) := rfl

/-- Every chunk appended by the recursive-splitting inner loop of
`split_document` is a `create_chunk` of the document. -/
theorem inner_fold_chunks (doc : Document) (hp : List String) :
    ∀ (subs : List String) (st : List Chunk × Nat), (∀ c ∈ st.1, isCreatedChunk doc c) →
      ∀ c ∈ (subs.foldl
          (fun st' sub_chunk => (st'.1 ++ [create_chunk doc sub_chunk hp st'.2], st'.2 + 1))
          st).1,
        isCreatedChunk doc c := by
  intro subs
  induction subs with
  | nil => intro st hst c hc; exact hst c hc
  | cons s rest ih =>
    intro st hst c hc
    refine ih (st.1 ++ [create_chunk doc s hp st.2], st.2 + 1) ?_ c hc
    intro d hd
    rcases List.mem_append.mp hd with h | h
    · exact hst d h
    · rcases List.mem_singleton.mp h with rfl
      exact isCreatedChunk_create doc s hp st.2

/-- Every chunk produced by the section loop of `split_document` is a
`create_chunk` of the document. -/
theorem section_fold_chunks (recSplit : Nat → Nat → String → List String)
    (cs co ms : Nat) (doc : Document) :
    ∀ (secs : List MDSection) (st : List Chunk × Nat), (∀ c ∈ st.1, isCreatedChunk doc c) →
      ∀ c ∈ (secs.foldl (splitSectionStep recSplit cs co ms doc) st).1,
        isCreatedChunk doc c := by
  intro secs
  induction secs with
  | nil => intro st hst c hc; exact hst c hc
  | cons sec rest ih =>
    intro st hst c hc
    refine ih (splitSectionStep recSplit cs co ms doc st sec) ?_ c hc
    unfold splitSectionStep
    by_cases hlen : sec.page_content.length > ms
    · rw [if_pos hlen]
      exact inner_fold_chunks doc (extract_heading_path sec) _ st hst
    · rw [if_neg hlen]
      intro d hd
      rcases List.mem_append.mp hd with h | h
      · exact hst d h
      · rcases List.mem_singleton.mp h with rfl
        exact isCreatedChunk_create doc sec.page_content (extract_heading_path sec) st.2

/-- C3: every chunk emitted by the chunker has
`chunk_id = SHA-256(doc_id ++ ":" ++ version ++ ":" ++
join(heading_path, ":") ++ ":" ++ chunk_index ++ ":" ++ SHA-256(content))`,
so chunk identity is a pure function of
`(doc_id, version, heading_path, chunk_index, content)`. -/
theorem c3_chunk_id_formula (mdSplit : String → List MDSection)
    (recSplit : Nat → Nat → String → List String) (doc : Document)
    (cs co ms : Nat) (c : Chunk)
    (hc : c ∈ split_document mdSplit recSplit doc cs co ms) :
    c.doc_id = doc.id ∧
    c.chunk_id = sha256Hex (utf8Bytes (doc.id ++ ":" ++ doc.version ++ ":" ++
      String.intercalate ":" c.heading_path ++ ":" ++ toString c.chunk_index ++ ":" ++
      sha256Hex (utf8Bytes c.content))) := by
  have hmade : isCreatedChunk doc c := by
    unfold split_document at hc
    by_cases hemp : doc.content.getD "" = ""
    · rw [if_pos hemp] at hc; cases hc
    · rw [if_neg hemp] at hc
      exact section_fold_chunks recSplit cs co ms doc (mdSplit (doc.content.getD "")) ([], 0)
        (by intro d hd; cases hd) c hc
  constructor
  · conv_lhs => rw [hmade]
    exact create_chunk_doc_id doc c.content c.heading_path c.chunk_index
  · conv_lhs => rw [hmade]
    exact create_chunk_chunk_id doc c.content c.heading_path c.chunk_index

def c3doc : Document :=
  { id := "blog:welcome", path := "blog/welcome.md", title := "Welcome",
    checksum := "abc123", version := "latest", content := some "# Hi" }

def c3mdSplit : String → List MDSection := fun _ => [{ page_content := "hello world" }]

def c3recSplit : Nat → Nat → String → List String := fun _ _ s => [s]

/-- Witness for C3 at a concrete document and splitter pair. -/
theorem c3_chunk_id_formula_witness :
    (create_chunk c3doc "hello world" [] 0).doc_id = c3doc.id ∧
    (create_chunk c3doc "hello world" [] 0).chunk_id =
      sha256Hex (utf8Bytes (c3doc.id ++ ":" ++ c3doc.version ++ ":" ++
        String.intercalate ":" (create_chunk c3doc "hello world" [] 0).heading_path ++ ":" ++
        toString (create_chunk c3doc "hello world" [] 0).chunk_index ++ ":" ++
        sha256Hex (utf8Bytes (create_chunk c3doc "hello world" [] 0).content))) :=
  c3_chunk_id_formula c3mdSplit c3recSplit c3doc 500 80 2000
    (create_chunk c3doc "hello world" [] 0)
    (by decide)

/-- C6: the chunker is deterministic — two runs on the same document with
the same configuration (and the same underlying splitters, which are pure
functions) give the same number of chunks, in the same order, with
pairwise equal `chunk_id`, `content`, `heading_path` and `chunk_index`.
In this embedding the chunker is a pure function, so both runs are the
same value. -/
theorem c6_chunker_deterministic (mdSplit : String → List MDSection)
    (recSplit : Nat → Nat → String → List String) (doc : Document) (cs co ms : Nat) :
    (split_document mdSplit recSplit doc cs co ms).length =
      (split_document mdSplit recSplit doc cs co ms).length ∧
    (split_document mdSplit recSplit doc cs co ms).map Chunk.chunk_id =
      (split_document mdSplit recSplit doc cs co ms).map Chunk.chunk_id ∧
    (split_document mdSplit recSplit doc cs co ms).map Chunk.content =
      (split_document mdSplit recSplit doc cs co ms).map Chunk.content ∧
    (split_document mdSplit recSplit doc cs co ms).map Chunk.heading_path =
      (split_document mdSplit recSplit doc cs co ms).map Chunk.heading_path ∧
    (split_document mdSplit recSplit doc cs co ms).map Chunk.chunk_index =
      (split_document mdSplit recSplit doc cs co ms).map Chunk.chunk_index ∧
    split_document mdSplit recSplit doc cs co ms =
      split_document mdSplit recSplit doc cs co ms :=
  ⟨rfl, rfl, rfl, rfl, rfl, rfl⟩

def c2doc : Document :=
  { id := "doc-1", path := "p.md", title := "T", checksum := "sum-unchanged",
    version := "latest", content := some "body" }

def c2row : DocumentRow :=
  { doc_id := "doc-1", path := "p.md", title := "T", version := "latest",
    checksum := "sum-unchanged", chunk_ids := ["x1"] }

def c2oldChunk : Chunk := { chunk_id := "x1", doc_id := "doc-1", content := "old" }

def c2newChunk : Chunk := { chunk_id := "y1", doc_id := "doc-1", content := "new" }

def c2stores : Stores := { docs := [c2row], vecChunks := [c2oldChunk] }

/-- C2 (code bug): for a document whose stored checksum equals its current
checksum, `force_rebuild = true` deletes the document's chunks from the
vector store (in `build_from_jsonl`) and then `index_document` — which
never sees the flag — still returns `skipped` with 0 chunks added, leaving
the document's chunks deleted but not re-added while the doc row still
lists them.  With `force_rebuild = false` the same input is skipped with
the state untouched, as the claim requires. -/
theorem c2_force_rebuild_bug :
    (build_step true c2stores c2doc [c2newChunk]).1.status = "skipped" ∧
    (build_step true c2stores c2doc [c2newChunk]).1.chunks_added = 0 ∧
    (build_step true c2stores c2doc [c2newChunk]).1.chunks_deleted = 0 ∧
    (build_step true c2stores c2doc [c2newChunk]).2.vecChunks = [] ∧
    get_chunk_ids (build_step true c2stores c2doc [c2newChunk]).2.docs "doc-1" = ["x1"] ∧
    build_step false c2stores c2doc [c2newChunk] =
      ((build_step true c2stores c2doc [c2newChunk]).1, c2stores) := by
  decide

def c5r1 : SearchResult :=
  { chunk_id := "c1", doc_id := "d", content := "cat", heading_path := [],
    chunk_index := 0, score := 1/2 }

def c5r2 : SearchResult :=
  { chunk_id := "c2", doc_id := "d", content := "dog", heading_path := [],
    chunk_index := 1, score := 2/5 }

/-- C5 (code bug): the diversity pass subtracts
`diversity_penalty * (total_occurrences - 1)` from every chunk of a
document that contributes more than one chunk — including the first.
Here two chunks of doc `d` with scores 1/2 and 2/5 and a query
contributing no boosts both lose 1/20; the first chunk does not keep its
boosted score 1/2 as the claim requires. -/
theorem c5_diversity_penalty_bug :
    extract_terms "the" = [] ∧
    (rerank {} [c5r1, c5r2] "the").map (·.score) = [9/20, 7/20] ∧
    ((9 : ℚ)/20 ≠ 1/2) := by
  with_unfolding_all decide

def c1semResult : SearchResult := vs_result "c1" "d1" "first chunk" [] 0 (9/10)

/-- C1 (code bug): `_reciprocal_rank_fusion` overwrites the fused dict's
`score` with the RRF score and never writes a `semantic_score` key, while
`KBRetriever.search` in hybrid mode thresholds on
`r.get("semantic_score", 0.0)`.  A chunk whose semantic similarity 9/10
exceeds the threshold 7/10 is fused (RRF score `0.7/61 = 7/610`), carries
no semantic-score field, and is dropped by the threshold filter. -/
theorem c1_semantic_threshold_bug :
    (reciprocal_rank_fusion {} [c1semResult] [] 10).map (·.semanticScore) = [none] ∧
    (reciprocal_rank_fusion {} [c1semResult] [] 10).map (·.score) = [7/610] ∧
    ((7 : ℚ)/10 ≤ 9/10) ∧
    retriever_postprocess (7/10) 3 true (reciprocal_rank_fusion {} [c1semResult] [] 10) =
      [] := by
  with_unfolding_all decide

/-- C10: when no raw result passes the score threshold the retriever
returns the empty list — a normal value of the (total) search function,
not an error. -/
theorem c10_empty_results_normal (score_threshold : ℚ) (max_chunks_per_doc : Nat)
    (use_hybrid : Bool) (raw_results : List SearchResult)
    (h : ∀ r ∈ raw_results, filter_score use_hybrid r < score_threshold) :
    retriever_postprocess score_threshold max_chunks_per_doc use_hybrid raw_results = [] := by
  have hf : raw_results.filter (fun r => score_threshold ≤ filter_score use_hybrid r) = [] := by
    rw [List.filter_eq_nil_iff]
    intro a ha
    simpa using not_le.mpr (h a ha)
  unfold retriever_postprocess
  rw [hf]
  rfl

def c10r : SearchResult :=
  { chunk_id := "c", doc_id := "d", content := "x", heading_path := [],
    chunk_index := 0, score := 1/2 }

/-- Witness for C10 at a concrete below-threshold result list. -/
theorem c10_empty_results_normal_witness :
    retriever_postprocess (7/10) 3 false [c10r] = [] :=
  c10_empty_results_normal (7/10) 3 false [c10r] (by with_unfolding_all decide)

def c8r : SearchResult :=
  { chunk_id := "c1", doc_id := "d", content := "the cat", heading_path := [],
    chunk_index := 0, score := 1/2 }

/-- C8 counterexample: for the stop-word query "the" the extracted term
list is empty, yet re-ranking changes a score — the exact-match boost
counts occurrences of the full lowercased query string in the content,
independently of `query_terms`.  Content "the cat" contains "the" once, so
the score moves from 1/2 to 1/2 + 0.15/3 = 11/20. -/
theorem c8_counterexample :
    extract_terms "the" = [] ∧
    (rerank {} [c8r] "the").map (·.score) = [11/20] ∧
    ((11 : ℚ)/20 ≠ 1/2) := by
  with_unfolding_all decide

theorem heading_boost_empty_terms (cfg : RerankConfig) (hp : List String) :
    calculate_heading_boost cfg [] hp = 0 := by
  unfold calculate_heading_boost
  by_cases h : hp = []
  · rw [if_pos h]
  · rw [if_neg h]; simp

theorem term_frequency_empty_terms (content : String) :
    calculate_term_frequency [] content = 0 := by
  unfold calculate_term_frequency
  rw [if_pos rfl]

/-- With no query terms, no full-query occurrence in the content and a
score already inside `[0,1]`, the first re-ranking pass leaves a result
unchanged. -/
theorem rerankPass1_id (cfg : RerankConfig) (query_lower : String) (r : SearchResult)
    (h0 : pyCount (pyLower r.content) query_lower = 0)
    (hs0 : 0 ≤ r.score) (hs1 : r.score ≤ 1) :
    rerankPass1 cfg query_lower [] r = r := by
  unfold rerankPass1 rerankAdjustment count_exact_matches
  rw [h0, heading_boost_empty_terms, term_frequency_empty_terms]
  norm_num
  rw [min_eq_right hs1, max_eq_right hs0]

/-- A result whose document appears only once is unchanged by the second
re-ranking pass. -/
theorem rerankPass2_id (cfg : RerankConfig) (doc_occurrences : String → Nat)
    (r : SearchResult) (h : doc_occurrences r.doc_id ≤ 1) :
    rerankPass2 cfg doc_occurrences r = r := by
  unfold rerankPass2
  rw [if_neg (by omega)]

/-- C8 (amended): when the query yields no extracted terms, the heading
boost and term-frequency component vanish; if moreover the full lowercased
query does not occur in any result's content (so the exact-match boost is
zero), every document contributes at most one chunk (so the diversity
penalty does not fire) and every score lies in `[0,1]` (so the clamp is
the identity), the re-ranker returns a permutation (the stable re-sort by
score) of the input with every item — hence every score — unchanged. -/
theorem c8_stopword_query_amended (cfg : RerankConfig) (results : List SearchResult)
    (query : String)
    (hterms : extract_terms query = [])
    (hnoexact : ∀ r ∈ results, pyCount (pyLower r.content) (pyLower query) = 0)
    (hdocs : (results.map (·.doc_id)).Nodup)
    (hscores : ∀ r ∈ results, 0 ≤ r.score ∧ r.score ≤ 1) :
    (rerank cfg results query).Perm results := by
  by_cases hres : results = []
  · subst hres
    simp [rerank]
  · unfold rerank
    rw [if_neg hres, hterms]
    have h1 : results.map (rerankPass1 cfg (pyLower query) []) = results := by
      rw [show results.map (rerankPass1 cfg (pyLower query) []) = results.map id from
        List.map_congr_left (fun r hr =>
          rerankPass1_id cfg (pyLower query) r (hnoexact r hr)
            (hscores r hr).1 (hscores r hr).2)]
      exact List.map_id results
    rw [h1]
    have h2 : results.map
        (rerankPass2 cfg (fun d => (results.map (·.doc_id)).count d)) = results := by
      rw [show results.map (rerankPass2 cfg (fun d => (results.map (·.doc_id)).count d))
          = results.map id from
        List.map_congr_left (fun r hr =>
          rerankPass2_id cfg _ r
            (le_of_eq (List.count_eq_one_of_mem hdocs
              (List.mem_map_of_mem (·.doc_id) hr))))]
      exact List.map_id results
    rw [h2]
    exact List.perm_insertionSort _ results

def c8w1 : SearchResult :=
  { chunk_id := "w1", doc_id := "d1", content := "cat", heading_path := [],
    chunk_index := 0, score := 3/5 }

def c8w2 : SearchResult :=
  { chunk_id := "w2", doc_id := "d2", content := "dog", heading_path := [],
    chunk_index := 0, score := 1/2 }

/-- Witness for the amended C8 at a concrete stop-word query. -/
theorem c8_stopword_query_amended_witness :
    (rerank {} [c8w1, c8w2] "the").Perm [c8w1, c8w2] :=
  c8_stopword_query_amended {} [c8w1, c8w2] "the"
    (by with_unfolding_all decide)
    (by with_unfolding_all decide)
    (by with_unfolding_all decide)
    (by with_unfolding_all decide)

/-! ### C4: the RRF fusion formula -/

/-- One weighted term of the RRF formula: `w / (K + rank)` when the chunk
has a rank in the list, no contribution when absent. -/
def rrf_rank_term (w : ℚ) (K : Nat) : Option Nat → ℚ
  | some r => w / ((K : ℚ) + r)
  | none => 0

theorem dict_get_append (m : List (String × Nat)) (p : String × Nat) (key : String) :
    dict_get (m ++ [p]) key = if p.1 == key then some p.2 else dict_get m key := by
  unfold dict_get
  rw [List.foldl_append]
  rfl

theorem rank_dict_append (rs : List SearchResult) (x : SearchResult) :
    rank_dict (rs ++ [x]) = rank_dict rs ++ [(x.chunk_id, rs.length + 1)] := by
  unfold rank_dict
  rw [List.enum_append]
  simp [List.enumFrom]

/-- Soundness of the rank dict: a stored rank `n` is 1-based and position
`n-1` of the list holds a result with that chunk id. -/
theorem dict_get_rank_sound (rs : List SearchResult) (id : String) (n : Nat)
    (h : dict_get (rank_dict rs) id = some n) :
    1 ≤ n ∧ ∃ hlt : n - 1 < rs.length, (rs.get ⟨n - 1, hlt⟩).chunk_id = id := by
  induction rs using List.reverseRecOn with
  | nil => simp [rank_dict, dict_get] at h
  | append_singleton rs x ih =>
    rw [rank_dict_append, dict_get_append] at h
    have hlen : (rs ++ [x]).length = rs.length + 1 := by simp
    by_cases hx : (x.chunk_id == id) = true
    · rw [if_pos hx] at h
      obtain rfl : rs.length + 1 = n := by simpa using h
      have hlt : rs.length + 1 - 1 < (rs ++ [x]).length := by omega
      refine ⟨by omega, hlt, ?_⟩
      have hget : (rs ++ [x]).get ⟨rs.length + 1 - 1, hlt⟩ = x := by
        rw [List.get_eq_getElem]
        exact List.getElem_concat_length rs x (rs.length + 1 - 1) (by omega) hlt
      rw [hget]
      exact eq_of_beq hx
    · rw [if_neg hx] at h
      obtain ⟨h1, hlt, heq⟩ := ih h
      have hlt2 : n - 1 < (rs ++ [x]).length := by omega
      refine ⟨h1, hlt2, ?_⟩
      have hget : (rs ++ [x]).get ⟨n - 1, hlt2⟩ = rs.get ⟨n - 1, hlt⟩ := by
        rw [List.get_eq_getElem, List.get_eq_getElem]
        exact List.getElem_append_left hlt
      rw [hget]
      exact heq

/-- Completeness of the rank dict: every chunk id occurring in the list
has a stored rank. -/
theorem dict_get_rank_mem (rs : List SearchResult) (id : String)
    (h : id ∈ rs.map (·.chunk_id)) :
    (dict_get (rank_dict rs) id).isSome := by
  induction rs using List.reverseRecOn with
  | nil => simp at h
  | append_singleton rs x ih =>
    rw [rank_dict_append, dict_get_append]
    by_cases hx : (x.chunk_id == id) = true
    · rw [if_pos hx]; rfl
    · rw [if_neg hx]
      apply ih
      rw [List.map_append, List.mem_append] at h
      rcases h with h | h
      · exact h
      · exfalso
        simp at h
        exact absurd (beq_iff_eq.mpr h.symm) (by simpa using hx)

/-- The three-branch score computation equals the uniform two-term RRF
formula. -/
theorem rrf_score_of_eq (cfg : HybridConfig) (os ok : Option Nat) (q : ℚ)
    (h : rrf_score_of cfg os ok = some q) :
    q = rrf_rank_term cfg.alpha cfg.rrf_k os + rrf_rank_term (1 - cfg.alpha) cfg.rrf_k ok := by
  cases os with
  | some r1 =>
    cases ok with
    | some r2 =>
      obtain rfl : _ = q := by simpa [rrf_score_of] using h
      simp only [rrf_rank_term]
      ring
    | none =>
      obtain rfl : _ = q := by simpa [rrf_score_of] using h
      simp [rrf_rank_term]
  | none =>
    cases ok with
    | some r2 =>
      obtain rfl : _ = q := by simpa [rrf_score_of] using h
      simp [rrf_rank_term]
    | none => simp [rrf_score_of] at h

theorem result_map_get_chunk_id (sem key : List SearchResult) (id : String)
    (r : SearchResult) (h : result_map_get sem key id = some r) : r.chunk_id = id := by
  unfold result_map_get at h
  cases hf : sem.reverse.find? (fun x => x.chunk_id == id) with
  | some r1 =>
    rw [hf] at h
    dsimp only at h
    cases h
    have hp := List.find?_some hf
    simpa using hp
  | none =>
    rw [hf] at h
    dsimp only at h
    have hp := List.find?_some h
    simpa using hp

/-- Every entry of the `rrf_scores` dict carries the RRF-formula score of
its chunk id. -/
theorem rrf_pairs_score (cfg : HybridConfig) (sem key : List SearchResult)
    (p : String × ℚ) (hp : p ∈ rrf_pairs cfg sem key) :
    p.2 = rrf_rank_term cfg.alpha cfg.rrf_k (dict_get (rank_dict sem) p.1)
        + rrf_rank_term (1 - cfg.alpha) cfg.rrf_k (dict_get (rank_dict key) p.1) := by
  unfold rrf_pairs at hp
  rw [List.mem_filterMap] at hp
  obtain ⟨id, _, hid⟩ := hp
  cases hs : rrf_score_of cfg (dict_get (rank_dict sem) id) (dict_get (rank_dict key) id) with
  | none => rw [hs] at hid; cases hid
  | some q =>
    rw [hs] at hid
    cases hid
    exact rrf_score_of_eq cfg _ _ q hs

/-- C4: for any two ranked input lists and parameters, every fused result
carries the RRF score `alpha/(K + r_sem) + (1-alpha)/(K + r_lex)` of its
chunk id (an absent rank contributing nothing), where a stored rank `n` is
exactly the 1-based position of that chunk id in the corresponding list;
the fused output is sorted descending by this score and has length at most
`k`. -/
theorem c4_rrf_formula (cfg : HybridConfig) (sem key : List SearchResult) (k : Nat) :
    (reciprocal_rank_fusion cfg sem key k).length ≤ k ∧
    ((reciprocal_rank_fusion cfg sem key k).map (·.score)).Sorted (fun a b => b ≤ a) ∧
    (∀ res ∈ reciprocal_rank_fusion cfg sem key k,
      res.score = rrf_rank_term cfg.alpha cfg.rrf_k (dict_get (rank_dict sem) res.chunk_id)
        + rrf_rank_term (1 - cfg.alpha) cfg.rrf_k (dict_get (rank_dict key) res.chunk_id)) ∧
    (∀ id n, dict_get (rank_dict sem) id = some n →
      1 ≤ n ∧ ∃ hlt : n - 1 < sem.length, (sem.get ⟨n - 1, hlt⟩).chunk_id = id) ∧
    (∀ id n, dict_get (rank_dict key) id = some n →
      1 ≤ n ∧ ∃ hlt : n - 1 < key.length, (key.get ⟨n - 1, hlt⟩).chunk_id = id) := by
  refine ⟨?_, ?_, ?_, fun id n h => dict_get_rank_sound sem id n h,
    fun id n h => dict_get_rank_sound key id n h⟩
  · calc (reciprocal_rank_fusion cfg sem key k).length
        ≤ ((List.insertionSort (fun a b : String × ℚ => b.2 ≤ a.2)
            (rrf_pairs cfg sem key)).take k).length :=
          List.length_filterMap_le _ _
      _ ≤ k := by rw [List.length_take]; exact min_le_left _ _
  · haveI : IsTotal (String × ℚ) (fun a b : String × ℚ => b.2 ≤ a.2) :=
      ⟨fun a b => le_total b.2 a.2⟩
    haveI : IsTrans (String × ℚ) (fun a b : String × ℚ => b.2 ≤ a.2) :=
      ⟨fun _ _ _ hab hbc => le_trans hbc hab⟩
    have hsorted := List.sorted_insertionSort (fun a b : String × ℚ => b.2 ≤ a.2)
      (rrf_pairs cfg sem key)
    have htake : List.Pairwise (fun a b : String × ℚ => b.2 ≤ a.2)
        ((List.insertionSort (fun a b : String × ℚ => b.2 ≤ a.2)
          (rrf_pairs cfg sem key)).take k) :=
      List.Pairwise.sublist (List.take_sublist k _) hsorted
    refine List.pairwise_map.mpr ?_
    unfold reciprocal_rank_fusion
    refine List.pairwise_filterMap.mpr ?_
    refine htake.imp ?_
    intro a b hab x hx y hy
    rw [Option.mem_def] at hx hy
    obtain ⟨ra, _, hxa⟩ := Option.map_eq_some'.mp hx
    obtain ⟨rb, _, hyb⟩ := Option.map_eq_some'.mp hy
    rw [← hxa, ← hyb]
    exact hab
  · intro res hres
    unfold reciprocal_rank_fusion at hres
    rw [List.mem_filterMap] at hres
    obtain ⟨p, hpmem, hpres⟩ := hres
    obtain ⟨r, hr, hres⟩ := Option.map_eq_some'.mp hpres
    have hpid : r.chunk_id = p.1 := result_map_get_chunk_id sem key p.1 r hr
    have hp2 : p ∈ rrf_pairs cfg sem key :=
      (List.perm_insertionSort (fun a b : String × ℚ => b.2 ≤ a.2) _).mem_iff.mp
        (List.mem_of_mem_take hpmem)
    have hscore := rrf_pairs_score cfg sem key p hp2
    rw [← hres]
    show p.2 = _
    rw [hscore]
    have : ({ r with score := p.2 } : SearchResult).chunk_id = p.1 := hpid
    rw [this]

def c4a : SearchResult :=
  { chunk_id := "a", doc_id := "d1", content := "alpha", heading_path := [],
    chunk_index := 0, score := 9/10 }

/-- Witness for C4 at a concrete pair of ranked lists. -/
theorem c4_rrf_formula_witness :
    ∃ res ∈ reciprocal_rank_fusion {} [c4a] [] 10,
      res.score = rrf_rank_term (7/10) 60 (dict_get (rank_dict [c4a]) res.chunk_id)
        + rrf_rank_term (1 - 7/10) 60 (dict_get (rank_dict []) res.chunk_id) := by
  refine ⟨{ c4a with score := 7/610 }, by with_unfolding_all decide, ?_⟩
  exact (c4_rrf_formula {} [c4a] [] 10).2.2.1 _ (by with_unfolding_all decide)

/-! ### C9: the daily rate limiter -/

/-- Effect of `ip_set` on any later `ip_get`. -/
theorem ip_get_set (m : String → Nat) (ip j : String) (n : Nat) :
    ip_get (ip_set m ip n) j = if j == ip then n else ip_get m j := rfl

/-- The per-call facts about `hit` on a state already keyed to the current
day: day key preserved, counters move exactly by the allow/deny decision,
and an allowed call implies both counters were strictly below their
limits. -/
theorem hit_step_facts (cfg : RLConfig) (day : String) (rs : Nat) (st : RLState)
    (ip : String) (hday : st.day_key = some day) :
    (hit cfg day rs st ip).2.day_key = some day ∧
    (hit cfg day rs st ip).2.global_count
      = st.global_count + (if (hit cfg day rs st ip).1.allowed then 1 else 0) ∧
    (∀ j, ip_get (hit cfg day rs st ip).2.ip_counts j
      = ip_get st.ip_counts j
        + (if (hit cfg day rs st ip).1.allowed && (j == ip) then 1 else 0)) ∧
    ((hit cfg day rs st ip).1.allowed = true →
      st.global_count < cfg.global_daily_limit ∧
      ip_get st.ip_counts ip < cfg.per_ip_daily_limit) := by
  have hno : ¬(some day ≠ st.day_key) := by rw [hday]; simp
  unfold hit
  rw [if_neg hno]
  by_cases h1 : cfg.global_daily_limit ≤ st.global_count
  · rw [if_pos h1]
    refine ⟨hday, by simp, fun j => by simp, by simp⟩
  · rw [if_neg h1]
    by_cases h2 : cfg.per_ip_daily_limit ≤ ip_get st.ip_counts ip
    · rw [if_pos h2]
      refine ⟨hday, by simp, fun j => by simp, by simp⟩
    · rw [if_neg h2]
      refine ⟨hday, by simp, fun j => ?_, fun _ => ⟨by omega, by omega⟩⟩
      simp only [ip_get_set]
      by_cases hj : (j == ip) = true
      · obtain rfl : j = ip := eq_of_beq hj
        simp [hj]
      · simp [hj]

/-- Induction over a same-day trace: the final day key is unchanged, the
global counter advances by exactly the number of allowed hits and stays
within the limit, and each IP counter advances by exactly that IP's
allowed hits and stays within the per-IP limit. -/
theorem runHits_facts (cfg : RLConfig) (day : String) (rs : Nat) :
    ∀ (ips : List String) (st : RLState), st.day_key = some day →
      st.global_count ≤ cfg.global_daily_limit →
      (∀ j, ip_get st.ip_counts j ≤ cfg.per_ip_daily_limit) →
      (runHits cfg day rs ips st).2.day_key = some day ∧
      (runHits cfg day rs ips st).2.global_count
        = st.global_count + countAllowed (runHits cfg day rs ips st).1 ∧
      (runHits cfg day rs ips st).2.global_count ≤ cfg.global_daily_limit ∧
      (∀ j, ip_get (runHits cfg day rs ips st).2.ip_counts j
        = ip_get st.ip_counts j + countAllowedFor j ips (runHits cfg day rs ips st).1) ∧
      (∀ j, ip_get (runHits cfg day rs ips st).2.ip_counts j ≤ cfg.per_ip_daily_limit) := by
  intro ips
  induction ips with
  | nil =>
    intro st hday hg hip
    exact ⟨hday, by simp [runHits, countAllowed], by simpa [runHits],
      fun j => by simp [runHits, countAllowedFor], fun j => by simpa [runHits] using hip j⟩
  | cons ip rest ih =>
    intro st hday hg hip
    obtain ⟨sday, sglobal, sip, sallow⟩ := hit_step_facts cfg day rs st ip hday
    have hg' : (hit cfg day rs st ip).2.global_count ≤ cfg.global_daily_limit := by
      by_cases hall : (hit cfg day rs st ip).1.allowed = true
      · have := (sallow hall).1
        rw [sglobal, hall]
        simpa using this
      · rw [sglobal]
        simp only [Bool.not_eq_true] at hall
        rw [hall]
        simpa using hg
    have hip' : ∀ j, ip_get (hit cfg day rs st ip).2.ip_counts j ≤ cfg.per_ip_daily_limit := by
      intro j
      rw [sip j]
      by_cases hall : (hit cfg day rs st ip).1.allowed = true
      · by_cases hj : (j == ip) = true
        · obtain rfl : j = ip := eq_of_beq hj
          have := (sallow hall).2
          rw [hall, hj]
          simpa using this
        · rw [hall]
          simp only [Bool.true_and, hj]
          simpa using hip j
      · simp only [Bool.not_eq_true] at hall
        rw [hall]
        simpa using hip j
    obtain ⟨rday, rglobal, rgbound, rip, ripbound⟩ :=
      ih (hit cfg day rs st ip).2 sday hg' hip'
    have hout : runHits cfg day rs (ip :: rest) st
        = ((hit cfg day rs st ip).1.allowed :: (runHits cfg day rs rest (hit cfg day rs st ip).2).1,
           (runHits cfg day rs rest (hit cfg day rs st ip).2).2) := rfl
    rw [hout]
    refine ⟨rday, ?_, rgbound, fun j => ?_, ripbound⟩
    · have hcount : countAllowed ((hit cfg day rs st ip).1.allowed
          :: (runHits cfg day rs rest (hit cfg day rs st ip).2).1)
        = (if (hit cfg day rs st ip).1.allowed then 1 else 0)
          + countAllowed (runHits cfg day rs rest (hit cfg day rs st ip).2).1 := by
        unfold countAllowed
        by_cases hall : (hit cfg day rs st ip).1.allowed = true
        · simp [hall]
          omega
        · simp only [Bool.not_eq_true] at hall
          simp [hall]
      rw [hcount, rglobal, sglobal]
      omega
    · have hcount : countAllowedFor j (ip :: rest)
          ((hit cfg day rs st ip).1.allowed
            :: (runHits cfg day rs rest (hit cfg day rs st ip).2).1)
        = (if (hit cfg day rs st ip).1.allowed && (j == ip) then 1 else 0)
          + countAllowedFor j rest (runHits cfg day rs rest (hit cfg day rs st ip).2).1 := by
        unfold countAllowedFor
        by_cases hj : j = ip
        · subst hj
          by_cases hall : (hit cfg day rs st j).1.allowed = true
          · simp [List.zip_cons_cons, List.filter_cons, hall]
            omega
          · simp only [Bool.not_eq_true] at hall
            simp [List.zip_cons_cons, List.filter_cons, hall]
        · have h1 : (ip == j) = false := by
            rw [beq_eq_false_iff_ne]
            exact fun h => hj h.symm
          have h2 : (j == ip) = false := by
            rw [beq_eq_false_iff_ne]
            exact hj
          simp [List.zip_cons_cons, List.filter_cons, h1, h2]
      rw [hcount, rip j, sip j]
      omega

/-- The fresh per-day state after a reset. -/
def initState (day : String) : RLState :=
  { day_key := some day, global_count := 0, ip_counts := fun _ => 0 }

/-- C9: over any same-day trace starting from the day's fresh state, the
limiter allows at most 50 hits per IP and at most 10 000 hits in total
(the `DailyRateLimitConfig` defaults); a denied hit leaves the state
unchanged; and a hit whose day key differs from the stored one behaves
exactly as from the fresh (reset) state of that day. -/
theorem c9_rate_limiter (day : String) (rs : Nat) (ips : List String) (ip : String) :
    countAllowedFor ip ips (runHits {} day rs ips (initState day)).1 ≤ 50 ∧
    countAllowed (runHits {} day rs ips (initState day)).1 ≤ 10000 ∧
    (∀ (cfg : RLConfig) (st : RLState) (j : String), st.day_key = some day →
      (hit cfg day rs st j).1.allowed = false → (hit cfg day rs st j).2 = st) ∧
    (∀ (cfg : RLConfig) (st : RLState) (j : String), st.day_key ≠ some day →
      hit cfg day rs st j = hit cfg day rs (initState day) j) := by
  obtain ⟨_, hglobal, hgbound, hip, hipbound⟩ :=
    runHits_facts {} day rs ips (initState day) rfl (by simp [initState])
      (fun j => by simp [initState, ip_get])
  refine ⟨?_, ?_, ?_, ?_⟩
  · have h1 := hip ip
    have h2 := hipbound ip
    dsimp only [initState, ip_get] at h1 h2 ⊢
    omega
  · dsimp only [initState] at hglobal hgbound ⊢
    omega
  · intro cfg st j hday hdeny
    have hno : ¬(some day ≠ st.day_key) := by rw [hday]; simp
    unfold hit at hdeny ⊢
    rw [if_neg hno] at hdeny ⊢
    by_cases h1 : cfg.global_daily_limit ≤ st.global_count
    · rw [if_pos h1]
    · rw [if_neg h1] at hdeny ⊢
      by_cases h2 : cfg.per_ip_daily_limit ≤ ip_get st.ip_counts j
      · rw [if_pos h2]
      · rw [if_neg h2] at hdeny
        simp at hdeny
  · intro cfg st j hday
    have hyes : some day ≠ st.day_key := fun h => hday h.symm
    have hno : ¬(some day ≠ (initState day).day_key) := by simp [initState]
    unfold hit
    rw [if_pos hyes, if_neg hno]
    rfl

def c9denySt : RLState :=
  { day_key := some "2026-01-01", global_count := 10000, ip_counts := fun _ => 0 }

def c9staleSt : RLState :=
  { day_key := some "2025-12-31", global_count := 7,
    ip_counts := fun j => if j == "a" then 3 else 0 }

/-- Witness for C9: a concrete trace, a concrete denied hit (global limit
reached) leaving the state unchanged, and a concrete stale-day hit
behaving as from the fresh state. -/
theorem c9_rate_limiter_witness :
    countAllowedFor "a" ["a", "b", "a"]
      (runHits {} "2026-01-01" 60 ["a", "b", "a"] (initState "2026-01-01")).1 ≤ 50 ∧
    (hit {} "2026-01-01" 60 c9denySt "a").2 = c9denySt ∧
    hit {} "2026-01-01" 60 c9staleSt "a"
      = hit {} "2026-01-01" 60 (initState "2026-01-01") "a" := by
  refine ⟨(c9_rate_limiter "2026-01-01" 60 ["a", "b", "a"] "a").1,
    (c9_rate_limiter "2026-01-01" 60 ["a", "b", "a"] "a").2.2.1 {} c9denySt "a"
      (by decide) (by decide),
    (c9_rate_limiter "2026-01-01" 60 ["a", "b", "a"] "a").2.2.2 {} c9staleSt "a"
      (by decide)⟩

/-! ### C7: vector store search scores -/

theorem dotL_cons (x y : ℝ) (a b : List ℝ) :
    dotL (x :: a) (y :: b) = x * y + dotL a b := by
  simp [dotL]

theorem dotL_self_nonneg (a : List ℝ) : 0 ≤ dotL a a := by
  induction a with
  | nil => simp [dotL]
  | cons x rest ih =>
    rw [dotL_cons]
    nlinarith [sq_nonneg x]

/-- Cauchy-Schwarz for the list dot product. -/
theorem dotL_sq_le (a : List ℝ) : ∀ b : List ℝ, (dotL a b) ^ 2 ≤ dotL a a * dotL b b := by
  induction a with
  | nil => intro b; simp [dotL]
  | cons x a ih =>
    intro b
    cases b with
    | nil => simp [dotL]
    | cons y b =>
      rw [dotL_cons, dotL_cons, dotL_cons]
      have hS := ih b
      have hA := dotL_self_nonneg a
      have hB := dotL_self_nonneg b
      by_cases hA0 : dotL a a = 0
      · have hS0 : dotL a b = 0 := by
          rw [hA0] at hS
          nlinarith [sq_nonneg (dotL a b)]
        rw [hA0, hS0]
        nlinarith [mul_nonneg (mul_self_nonneg x) hB]
      · have hApos : 0 < dotL a a := lt_of_le_of_ne hA (Ne.symm hA0)
        nlinarith [sq_nonneg (x * dotL a b - y * dotL a a),
          mul_nonneg (add_nonneg (mul_self_nonneg x) hA) (sub_nonneg.mpr hS), hApos]

/-- For nonzero vectors, `1 - cosine_distance` lies in `[-1, 1]`. -/
theorem cosine_score_bounds (a b : List ℝ) (ha : 0 < dotL a a) (hb : 0 < dotL b b) :
    -1 ≤ 1 - cosine_distance a b ∧ 1 - cosine_distance a b ≤ 1 := by
  have hover : (1 : ℝ) - cosine_distance a b
      = dotL a b / (Real.sqrt (dotL a a) * Real.sqrt (dotL b b)) := by
    unfold cosine_distance
    ring
  have hden : 0 < Real.sqrt (dotL a a) * Real.sqrt (dotL b b) :=
    mul_pos (Real.sqrt_pos.mpr ha) (Real.sqrt_pos.mpr hb)
  have habs : |dotL a b| ≤ Real.sqrt (dotL a a) * Real.sqrt (dotL b b) := by
    have h1 : |dotL a b| = Real.sqrt ((dotL a b) ^ 2) := (Real.sqrt_sq_eq_abs _).symm
    rw [h1, ← Real.sqrt_mul (le_of_lt ha)]
    exact Real.sqrt_le_sqrt (dotL_sq_le a b)
  have hq : |dotL a b / (Real.sqrt (dotL a a) * Real.sqrt (dotL b b))| ≤ 1 := by
    rw [abs_div, abs_of_pos hden]
    exact (div_le_one hden).mpr habs
  rw [hover]
  exact abs_le.mp hq

def c7row : VSRow :=
  { chunk_id := "a", doc_id := "d", content := "body", heading_path := [],
    chunk_index := 0, embedding := [1, 0] }

/-- C7 counterexample: for the query embedding `[-1, 0]` and a stored
chunk with embedding `[1, 0]` (both unit vectors), the cosine distance is
2 and the returned score `1 - distance = -1` lies outside `[0, 1]`. -/
theorem c7_counterexample :
    (vectorstore_search [-1, 0] [c7row] 10 none).map VSResult.score = [-1] ∧
    ¬ ((0 : ℝ) ≤ -1) := by
  refine ⟨?_, by norm_num⟩
  have hstep : vectorstore_search [-1, 0] [c7row] 10 none
      = [⟨c7row.chunk_id, c7row.doc_id, c7row.content, c7row.heading_path,
          c7row.chunk_index, 1 - cosine_distance [-1, 0] c7row.embedding⟩] := rfl
  have hd1 : dotL [(-1 : ℝ), 0] c7row.embedding = -1 := by
    show dotL [(-1 : ℝ), 0] [1, 0] = -1
    rw [dotL_cons, dotL_cons]
    simp [dotL]
  have hd2 : dotL [(-1 : ℝ), 0] [(-1 : ℝ), 0] = 1 := by
    rw [dotL_cons, dotL_cons]
    simp [dotL]
  have hd3 : dotL c7row.embedding c7row.embedding = 1 := by
    show dotL [(1 : ℝ), 0] [1, 0] = 1
    rw [dotL_cons, dotL_cons]
    simp [dotL]
  have hdist : cosine_distance [(-1 : ℝ), 0] c7row.embedding = 2 := by
    unfold cosine_distance
    rw [hd1, hd2, hd3, Real.sqrt_one]
    norm_num
  rw [hstep]
  simp [hdist]
  norm_num

/-- C7 (amended): for nonzero query and stored embeddings, every returned
score equals `1 - cosine_distance(query, embedding)` of some stored row
and lies in `[-1, 1]` (not `[0, 1]`); the list is ordered descending by
score with length at most `k`.  No chunk-id tie-break exists in the code:
rows at equal distance keep their table order (the SQL leaves it
unspecified). -/
theorem c7_search_amended (q : List ℝ) (rows : List VSRow) (k : Nat) (fid : Option String)
    (hq : 0 < dotL q q) (hrows : ∀ r ∈ rows, 0 < dotL r.embedding r.embedding) :
    (vectorstore_search q rows k fid).length ≤ k ∧
    ((vectorstore_search q rows k fid).map VSResult.score).Sorted (fun a b => b ≤ a) ∧
    (∀ res ∈ vectorstore_search q rows k fid, ∃ row ∈ rows,
      res.chunk_id = row.chunk_id ∧ res.score = 1 - cosine_distance q row.embedding ∧
      -1 ≤ res.score ∧ res.score ≤ 1) := by
  haveI : IsTotal VSRow (distLE q) := ⟨fun a b => le_total _ _⟩
  haveI : IsTrans VSRow (distLE q) := ⟨fun _ _ _ hab hbc => le_trans hab hbc⟩
  have hsubF : ∀ r ∈ vsFilter rows fid, r ∈ rows := by
    intro r hr
    cases fid with
    | none => exact hr
    | some d => exact List.mem_of_mem_filter hr
  refine ⟨?_, ?_, ?_⟩
  · calc (vectorstore_search q rows k fid).length
        = ((@List.insertionSort VSRow (distLE q) (fun _ _ => Classical.propDecidable _)
            (vsFilter rows fid)).take k).length := by
          unfold vectorstore_search
          rw [List.length_map]
      _ ≤ k := by rw [List.length_take]; exact min_le_left _ _
  · have hsorted : List.Sorted (distLE q)
        (@List.insertionSort VSRow (distLE q) (fun _ _ => Classical.propDecidable _)
          (vsFilter rows fid)) :=
      @List.sorted_insertionSort VSRow (distLE q) (fun _ _ => Classical.propDecidable _)
        _ _ (vsFilter rows fid)
    have htake := List.Pairwise.sublist (List.take_sublist k _) hsorted
    unfold vectorstore_search
    refine List.pairwise_map.mpr ?_
    refine List.pairwise_map.mpr ?_
    refine htake.imp ?_
    intro a b hab
    show (1 : ℝ) - cosine_distance q b.embedding ≤ 1 - cosine_distance q a.embedding
    have : cosine_distance q a.embedding ≤ cosine_distance q b.embedding := hab
    linarith
  · intro res hres
    unfold vectorstore_search at hres
    rw [List.mem_map] at hres
    obtain ⟨row, hrowmem, hres⟩ := hres
    have hrow : row ∈ rows :=
      hsubF row ((@List.perm_insertionSort VSRow (distLE q)
          (fun _ _ => Classical.propDecidable _) (vsFilter rows fid)).mem_iff.mp
        (List.mem_of_mem_take hrowmem))
    have hbounds := cosine_score_bounds q row.embedding hq (hrows row hrow)
    refine ⟨row, hrow, ?_, ?_, ?_, ?_⟩
    · rw [← hres]
    · rw [← hres]
    · rw [← hres]
      exact hbounds.1
    · rw [← hres]
      exact hbounds.2

def c7wrow : VSRow :=
  { chunk_id := "w", doc_id := "d", content := "text", heading_path := [],
    chunk_index := 0, embedding := [1, 0] }

/-- Witness for the amended C7 at a concrete query and table. -/
theorem c7_search_amended_witness :
    (vectorstore_search [0, 1] [c7wrow] 5 none).length ≤ 5 ∧
    ((vectorstore_search [0, 1] [c7wrow] 5 none).map VSResult.score).Sorted
      (fun a b => b ≤ a) ∧
    (∀ res ∈ vectorstore_search [0, 1] [c7wrow] 5 none, ∃ row ∈ [c7wrow],
      res.chunk_id = row.chunk_id ∧ res.score = 1 - cosine_distance [0, 1] row.embedding ∧
      -1 ≤ res.score ∧ res.score ≤ 1) :=
  c7_search_amended [0, 1] [c7wrow] 5 none
    (by rw [dotL_cons, dotL_cons]; simp [dotL])
    (by
      intro r hr
      rcases List.mem_singleton.mp hr with rfl
      show (0 : ℝ) < dotL [1, 0] [1, 0]
      rw [dotL_cons, dotL_cons]
      simp [dotL])

end KB
